import Mathlib

/-!
# Move-only ownership handles of `wrapper_class.cpp` and `move_constructors.cpp`

A shallow embedding of the two classes of the repository that own a resource
and hand it over by move:

* `IntPtrManager` (`src/wrapper_class.cpp`), which owns one heap `int` through
  the raw pointer `ptr_`;
* `Person` (`src/move_constructors.cpp`), which owns a vector of nicknames and
  carries the validity tag `valid_`.

C++ objects have identity (a move assignment may receive the object itself as
`other`), so both classes are embedded over an explicit store of objects: a
member function takes the identity `this` of the object it runs on, and the
identity of `other` where it has one, and transforms the store.  The free
store is a map from addresses to `int` cells with a log of the `delete`
calls.  Printing to `std::cout` has no effect on the objects and is left out.
-/

namespace ModernCpp

/-! ## The free store -/

/-- Ways in which a run of the embedded code stops without a result. -/
inductive Fault where
  /-- Dereference of `nullptr` (the segfault of the comment in `main`). -/
  | nullDeref
  /-- Dereference of an address that is not a live allocation. -/
  | danglingDeref
  /-- A member function run on an object outside its lifetime, or a
  constructor run on storage that already holds a live object. -/
  | outOfLifetime
  deriving DecidableEq, Repr

/-- The null pointer: address `0`. -/
def nullptr : Nat := 0

/-- Free store of `int` cells.  `cells p` is the content of the live
allocation at address `p`, `next` is the address the next `new int` returns
(addresses are never handed out twice, so an address names one allocation),
and `freed` logs every address passed to a `delete` that released something,
most recent first. -/
structure Heap where
  cells : Nat → Option Int
  next : Nat
  freed : List Nat

namespace Heap

/-- Free store before any allocation; address `0` is `nullptr`. -/
def empty : Heap := { cells := fun _ => none, next := 1, freed := [] }

/-- Expression `new int`: a fresh live cell (its indeterminate content is
taken as `0`) and its address. -/
def newInt (hp : Heap) : Nat × Heap :=
  (hp.next,
   { cells := fun a => if a = hp.next then some 0 else hp.cells a,
     next := hp.next + 1,
     freed := hp.freed })

/-- Statement `*p = v`. -/
def store (hp : Heap) (p : Nat) (v : Int) : Except Fault Heap :=
  if p = nullptr then .error .nullDeref
  else match hp.cells p with
    | none => .error .danglingDeref
    | some _ =>
      .ok { cells := fun a => if a = p then some v else hp.cells a,
            next := hp.next,
            freed := hp.freed }

/-- Expression `*p`. -/
def load (hp : Heap) (p : Nat) : Except Fault Int :=
  if p = nullptr then .error .nullDeref
  else match hp.cells p with
    | none => .error .danglingDeref
    | some v => .ok v

/-- Statement `delete p`: nothing for `nullptr`; otherwise the cell stops
being live and the release is logged. -/
def deleteInt (hp : Heap) (p : Nat) : Heap :=
  if p = nullptr then hp
  else
    { cells := fun a => if a = p then none else hp.cells a,
      next := hp.next,
      freed := p :: hp.freed }

/-- Number of times address `a` has been released. -/
def releaseCount (hp : Heap) (a : Nat) : Nat := hp.freed.count a

/-- Address `a` has been returned by some `new int`. -/
def allocated (hp : Heap) (a : Nat) : Prop := 1 ≤ a ∧ a < hp.next

instance (hp : Heap) (a : Nat) : Decidable (hp.allocated a) := by
  unfold allocated; exact inferInstance

end Heap

/-! ## `IntPtrManager` -/

/-- Data members of `class IntPtrManager`: the pointer `int *ptr_`. -/
structure IntPtrManager where
  ptr_ : Nat
  deriving DecidableEq, Repr

/-- Program state: the objects of class `IntPtrManager` within their
lifetime, by identity, and the free store. -/
structure State where
  objs : Nat → Option IntPtrManager
  heap : Heap

/-- State with no object and nothing allocated. -/
def State.init : State := { objs := fun _ => none, heap := Heap.empty }

/-- Object `h` is within its lifetime and its `ptr_` is not null. -/
def State.present (s : State) (h : Nat) : Prop :=
  ∃ p, s.objs h = some ⟨p⟩ ∧ p ≠ nullptr

/-- Object `h` is within its lifetime and its `ptr_` is null. -/
def State.absent (s : State) (h : Nat) : Prop :=
  s.objs h = some ⟨nullptr⟩

instance (s : State) (h : Nat) : Decidable (s.absent h) := by
  unfold State.absent; exact inferInstance

/-- Store of objects with object `h` set to `o`. -/
def setObj (objs : Nat → Option IntPtrManager) (h : Nat) (o : Option IntPtrManager) :
    Nat → Option IntPtrManager :=
  fun k => if k = h then o else objs k

namespace IntPtrManager

/-- Constructor `IntPtrManager()`: `ptr_ = new int; *ptr_ = 0;`. -/
def ctorDefault (this : Nat) (s : State) : Except Fault State :=
  match s.objs this with
  | some _ => .error .outOfLifetime
  | none =>
    let (p, hp) := s.heap.newInt
    match hp.store p 0 with
    | .error e => .error e
    | .ok hp1 => .ok { objs := setObj s.objs this (some ⟨p⟩), heap := hp1 }

/-- Constructor `IntPtrManager(int val)`: `ptr_ = new int; *ptr_ = val;`. -/
def ctor (this : Nat) (val : Int) (s : State) : Except Fault State :=
  match s.objs this with
  | some _ => .error .outOfLifetime
  | none =>
    let (p, hp) := s.heap.newInt
    match hp.store p val with
    | .error e => .error e
    | .ok hp1 => .ok { objs := setObj s.objs this (some ⟨p⟩), heap := hp1 }

/-- Body of the destructor `~IntPtrManager()`: `if (ptr_) { delete ptr_; }`.
The body does not write `ptr_`. -/
def dtorBody (this : Nat) (s : State) : Except Fault State :=
  match s.objs this with
  | none => .error .outOfLifetime
  | some t =>
    if t.ptr_ ≠ nullptr then
      .ok { objs := s.objs, heap := s.heap.deleteInt t.ptr_ }
    else .ok s

/-- Destruction of object `this`: the destructor body runs, then the lifetime
of the object ends. -/
def destroy (this : Nat) (s : State) : Except Fault State :=
  match dtorBody this s with
  | .error e => .error e
  | .ok s1 => .ok { objs := setObj s1.objs this none, heap := s1.heap }

/-- Move constructor `IntPtrManager(IntPtrManager&& other)`:
`ptr_ = other.ptr_; other.ptr_ = nullptr;`. -/
def moveCtor (this other : Nat) (s : State) : Except Fault State :=
  match s.objs this, s.objs other with
  | none, some o =>
    let objs1 := setObj s.objs this (some ⟨o.ptr_⟩)
    let objs2 := setObj objs1 other (some ⟨nullptr⟩)
    .ok { objs := objs2, heap := s.heap }
  | _, _ => .error .outOfLifetime

/-- Move assignment `operator=(IntPtrManager &&other)`:
`if (ptr_ == other.ptr_) return *this; if (ptr_) delete ptr_;
ptr_ = other.ptr_; other.ptr_ = nullptr; return *this;`. -/
def moveAssign (this other : Nat) (s : State) : Except Fault State :=
  match s.objs this, s.objs other with
  | some t, some o =>
    if t.ptr_ = o.ptr_ then .ok s
    else
      let hp := if t.ptr_ ≠ nullptr then s.heap.deleteInt t.ptr_ else s.heap
      let objs1 := setObj s.objs this (some ⟨o.ptr_⟩)
      let objs2 := setObj objs1 other (some ⟨nullptr⟩)
      .ok { objs := objs2, heap := hp }
  | _, _ => .error .outOfLifetime

/-- Member `void SetVal(int val)`: `*ptr_ = val;`. -/
def SetVal (this : Nat) (val : Int) (s : State) : Except Fault State :=
  match s.objs this with
  | none => .error .outOfLifetime
  | some t =>
    match s.heap.store t.ptr_ val with
    | .error e => .error e
    | .ok hp => .ok { objs := s.objs, heap := hp }

/-- Member `int GetVal() const`: `return *ptr_;`. -/
def GetVal (this : Nat) (s : State) : Except Fault Int :=
  match s.objs this with
  | none => .error .outOfLifetime
  | some t => s.heap.load t.ptr_

end IntPtrManager

/-- One operation of class `IntPtrManager` applied by a program. -/
inductive Op where
  | ctorDefault (h : Nat)
  | ctor (h : Nat) (val : Int)
  | moveCtor (h other : Nat)
  | moveAssign (h other : Nat)
  | setVal (h : Nat) (val : Int)
  | getVal (h : Nat)
  | destroy (h : Nat)
  deriving DecidableEq, Repr

/-- Effect of one operation on the state. -/
def step (op : Op) (s : State) : Except Fault State :=
  match op with
  | .ctorDefault h => IntPtrManager.ctorDefault h s
  | .ctor h v => IntPtrManager.ctor h v s
  | .moveCtor h o => IntPtrManager.moveCtor h o s
  | .moveAssign h o => IntPtrManager.moveAssign h o s
  | .setVal h v => IntPtrManager.SetVal h v s
  | .getVal h =>
    match IntPtrManager.GetVal h s with
    | .error e => .error e
    | .ok _ => .ok s
  | .destroy h => IntPtrManager.destroy h s

/-- Runs a program, a sequence of operations, from state `s`. -/
def run : List Op → State → Except Fault State
  | [], s => .ok s
  | op :: ops, s =>
    match step op s with
    | .error e => .error e
    | .ok s1 => run ops s1

/-- A state some program reaches from the state with no objects. -/
def Reachable (s : State) : Prop := ∃ ops, run ops State.init = .ok s

/-- The state a program ends in, or the given state if it faults. -/
def runFrom (ops : List Op) (s : State) : State :=
  match run ops s with
  | .ok s1 => s1
  | .error _ => s

/-! ## `Person` -/

/-- Data members of `class Person`: `uint32_t age_`,
`std::vector<std::string> nicknames_` and the validity tag `bool valid_`. -/
structure Person where
  age_ : Nat
  nicknames_ : List String
  valid_ : Bool
  deriving DecidableEq, Repr

/-- The objects of class `Person` within their lifetime, by identity. -/
abbrev PersonStore := Nat → Option Person

/-- Store with no `Person`. -/
def PersonStore.init : PersonStore := fun _ => none

/-- Store with the members of object `h` rewritten by `f`. -/
def modifyPerson (st : PersonStore) (h : Nat) (f : Person → Person) : PersonStore :=
  fun k => if k = h then (st k).map f else st k

namespace Person

/-- Constructor `Person() : age_(0), nicknames_({}), valid_(true)`. -/
def ctorDefault (this : Nat) (st : PersonStore) : Except Fault PersonStore :=
  match st this with
  | some _ => .error .outOfLifetime
  | none =>
    .ok (fun k => if k = this then some { age_ := 0, nicknames_ := [], valid_ := true }
                  else st k)

/-- Constructor `Person(uint32_t age, std::vector<std::string> &&nicknames)`:
`age_(age), nicknames_(std::move(nicknames)), valid_(true)`.  The argument is
converted to `uint32_t`. -/
def ctor (this : Nat) (age : Nat) (nicknames : List String) (st : PersonStore) :
    Except Fault PersonStore :=
  match st this with
  | some _ => .error .outOfLifetime
  | none =>
    .ok (fun k =>
      if k = this then
        some { age_ := age % 4294967296, nicknames_ := nicknames, valid_ := true }
      else st k)

/-- Move constructor `Person(Person &&person)`:
`age_(person.age_), nicknames_(std::move(person.nicknames_)), valid_(true)`,
then `person.valid_ = false;`.  A vector that has been moved from is empty. -/
def moveCtor (this person : Nat) (st : PersonStore) : Except Fault PersonStore :=
  match st this, st person with
  | none, some o =>
    let st1 : PersonStore := fun k =>
      if k = this then
        some { age_ := o.age_, nicknames_ := o.nicknames_, valid_ := true }
      else st k
    let st2 := modifyPerson st1 person (fun p => { p with nicknames_ := [] })
    .ok (modifyPerson st2 person (fun p => { p with valid_ := false }))
  | _, _ => .error .outOfLifetime

/-- Move assignment `operator=(Person &&other)`, statement by statement, each
reading the objects as the statements before it left them:
`age_ = other.age_; nicknames_ = std::move(other.nicknames_); valid_ = true;
other.valid_ = false; return *this;`.  The vector move assignment gives the
destination the elements of the source and leaves the source empty. -/
def moveAssign (this other : Nat) (st : PersonStore) : Except Fault PersonStore :=
  match st this, st other with
  | some _, some o =>
    let st1 := modifyPerson st this (fun p => { p with age_ := o.age_ })
    match st1 other with
    | none => .error .outOfLifetime
    | some o1 =>
      let st2 := modifyPerson st1 this (fun p => { p with nicknames_ := o1.nicknames_ })
      let st3 := modifyPerson st2 other (fun p => { p with nicknames_ := [] })
      let st4 := modifyPerson st3 this (fun p => { p with valid_ := true })
      .ok (modifyPerson st4 other (fun p => { p with valid_ := false }))
  | _, _ => .error .outOfLifetime

/-- Member `uint32_t GetAge()`: `return age_;`. -/
def GetAge (this : Nat) (st : PersonStore) : Except Fault Nat :=
  match st this with
  | none => .error .outOfLifetime
  | some p => .ok p.age_

/-- Member `std::string &GetNicknameAtI(size_t i)`: `return nicknames_[i];`.
The subscript of `std::vector` is unchecked: for `i` within the elements it
yields element `i`; for any other `i` the source fixes no outcome, and the
call yields whatever the read outside the elements yields, a string or a
fault, given by `beyond i`. -/
def GetNicknameAtI (this : Nat) (i : Nat) (st : PersonStore)
    (beyond : Nat → Except Fault String) : Except Fault String :=
  match st this with
  | none => .error .outOfLifetime
  | some p =>
    match p.nicknames_[i]? with
    | some nick => .ok nick
    | none => beyond i

/-- Member `void PrintValid()`, as the line it prints. -/
def PrintValid (this : Nat) (st : PersonStore) : Except Fault String :=
  match st this with
  | none => .error .outOfLifetime
  | some p => if p.valid_ then .ok "Object is valid." else .ok "Object is invalid."

end Person

/-! ## Ownership bookkeeping -/

/-- No two distinct objects within their lifetime hold the same non-null
`ptr_`. -/
def Exclusive (s : State) : Prop :=
  ∀ h1 h2 p, s.objs h1 = some ⟨p⟩ → s.objs h2 = some ⟨p⟩ → p ≠ nullptr → h1 = h2

/-- Every object within its lifetime has ended it: no handle is left. -/
def AllDestroyed (s : State) : Prop := ∀ h, s.objs h = none

/-- Ownership bookkeeping of a state: every non-null `ptr_` of a live object
is an allocated address whose cell is live and unreleased, no two live
objects share one, no address is in the release log twice, only allocated
addresses are released, and every allocated address is either released or
held by a live object. -/
structure Inv (s : State) : Prop where
  next_pos : 1 ≤ s.heap.next
  owned_alloc : ∀ h p, s.objs h = some ⟨p⟩ → p ≠ nullptr → p < s.heap.next
  owned_live : ∀ h p, s.objs h = some ⟨p⟩ → p ≠ nullptr → ∃ v, s.heap.cells p = some v
  owned_unfreed : ∀ h p, s.objs h = some ⟨p⟩ → p ≠ nullptr → p ∉ s.heap.freed
  excl : Exclusive s
  freed_nodup : s.heap.freed.Nodup
  freed_alloc : ∀ a, a ∈ s.heap.freed → s.heap.allocated a
  covered : ∀ a, s.heap.allocated a → a ∈ s.heap.freed ∨ ∃ h, s.objs h = some ⟨a⟩

/-! ## Concrete programs -/

/-- State of `main` in `wrapper_class.cpp` after `IntPtrManager a(445);`,
with `a` as object `0`. -/
def mainAfterCtor : State := runFrom [.ctor 0 445] State.init

/-- State of `main` in `wrapper_class.cpp` just before
`IntPtrManager b(std::move(a));`: after `IntPtrManager a(445);`, `a.GetVal()`
and `a.SetVal(645);`, with `a` as object `0`. -/
def mainBeforeMove : State :=
  runFrom [.ctor 0 445, .getVal 0, .setVal 0 645] State.init

/-- The whole of `main` in `wrapper_class.cpp`, the destructors of `b`
(object `1`) and `a` (object `0`) at the end of the scope included. -/
def mainProgram : List Op :=
  [.ctor 0 445, .getVal 0, .setVal 0 645, .moveCtor 1 0, .getVal 1, .destroy 1, .destroy 0]

/-- State of `main` in `wrapper_class.cpp` just after
`IntPtrManager b(std::move(a));`, with `b` as object `1`. -/
def mainAfterMove : State :=
  runFrom [.ctor 0 445, .getVal 0, .setVal 0 645, .moveCtor 1 0] State.init

/-- State at the end of `mainProgram`. -/
def mainEnd : State := runFrom mainProgram State.init

/-- The store a `Person` operation ends in, or the given store if it
faults. -/
def storeAfter (r : Except Fault PersonStore) (st : PersonStore) : PersonStore :=
  match r with
  | .ok st1 => st1
  | .error _ => st

/-- Objects of `main` in `move_constructors.cpp` after
`Person andy(15445, {"andy", "pavlo"});` and `Person andy1;`, with `andy` as
object `0` and `andy1` as object `1`. -/
def andyStore : PersonStore :=
  let st0 := storeAfter (Person.ctor 0 15445 ["andy", "pavlo"] PersonStore.init)
    PersonStore.init
  storeAfter (Person.ctorDefault 1 st0) st0

/-- Objects of `main` in `move_constructors.cpp` after
`andy1 = std::move(andy);`. -/
def andy1Store : PersonStore := storeAfter (Person.moveAssign 1 0 andyStore) andyStore

/-- Two handles owning different resources: `d` (object `0`) holds `2` and
`s` (object `1`) holds `5`. -/
def twoHandles : State := runFrom [.ctor 0 2, .ctor 1 5] State.init

end ModernCpp

/-! # Theorems -/

namespace ModernCpp

/-! ## Reading the object store -/

theorem setObj_same (objs : Nat → Option IntPtrManager) (h : Nat) (o : Option IntPtrManager) :
    setObj objs h o h = o := by
  simp [setObj]

theorem setObj_other (objs : Nat → Option IntPtrManager) (h k : Nat) (o : Option IntPtrManager)
    (hk : k ≠ h) : setObj objs h o k = objs k := by
  simp [setObj, hk]

/-! ## Move construction -/

/-- Claim C1.  Move construction `IntPtrManager b(std::move(a))` from a
present handle `a` that holds `v` into fresh storage `b` succeeds, leaves `a`
absent (its `ptr_` is null), leaves `b` present with the pointer `a` had, and
`b.GetVal()` returns `v`. -/
theorem moveCtor_transfers (s : State) (a b p : Nat) (v : Int)
    (ha : s.objs a = some ⟨p⟩) (hp : p ≠ nullptr)
    (hv : IntPtrManager.GetVal a s = .ok v) (hb : s.objs b = none) :
    ∃ s1, IntPtrManager.moveCtor b a s = .ok s1 ∧ s1.absent a ∧ s1.present b ∧
      s1.objs b = some ⟨p⟩ ∧ IntPtrManager.GetVal b s1 = .ok v := by
  have hne : b ≠ a := by
    rintro rfl
    rw [ha] at hb
    cases hb
  have hload : s.heap.load p = .ok v := by
    simpa [IntPtrManager.GetVal, ha] using hv
  refine ⟨{ objs := setObj (setObj s.objs b (some ⟨p⟩)) a (some ⟨nullptr⟩), heap := s.heap },
    ?_, ?_, ?_, ?_, ?_⟩
  · simp [IntPtrManager.moveCtor, ha, hb]
  · simp [State.absent, setObj]
  · exact ⟨p, by simp [setObj, hne], hp⟩
  · simp [setObj, hne]
  · simp [IntPtrManager.GetVal, setObj, hne, hload]

/-- Witness for C1 on `main` of `wrapper_class.cpp`: `a` holds `645` after
`SetVal(645)` and is moved into `b`. -/
theorem moveCtor_transfers_witness :
    mainBeforeMove.objs 0 = some ⟨1⟩ ∧ IntPtrManager.GetVal 0 mainBeforeMove = .ok 645 ∧
    ∃ s1, IntPtrManager.moveCtor 1 0 mainBeforeMove = .ok s1 ∧ s1.absent 0 ∧ s1.present 1 ∧
      s1.objs 1 = some ⟨1⟩ ∧ IntPtrManager.GetVal 1 s1 = .ok 645 :=
  ⟨by decide, rfl,
    moveCtor_transfers mainBeforeMove 0 1 1 645 (by decide) (by decide) rfl (by decide)⟩

/-! ## Move assignment -/

/-- Claim C2.  Move assignment `d = std::move(s)` where `d` and `s` are
present and own different resources succeeds; the release log gains exactly
the resource `d` owned (so its release count goes up by one, and the count of
every other address, that of the resource of `s` included, stays), `d` ends
present with the pointer `s` had and `d.GetVal()` returns the former value of
`s`, and `s` ends absent. -/
theorem moveAssign_present (st : State) (d s pd ps : Nat) (v : Int)
    (hd : st.objs d = some ⟨pd⟩) (hpd : pd ≠ nullptr)
    (hs : st.objs s = some ⟨ps⟩) (hps : ps ≠ nullptr)
    (hne : pd ≠ ps) (hv : IntPtrManager.GetVal s st = .ok v) :
    ∃ st1, IntPtrManager.moveAssign d s st = .ok st1 ∧
      st1.heap.freed = pd :: st.heap.freed ∧
      st1.heap.releaseCount pd = st.heap.releaseCount pd + 1 ∧
      st1.heap.releaseCount ps = st.heap.releaseCount ps ∧
      (∀ a, a ≠ pd → st1.heap.releaseCount a = st.heap.releaseCount a) ∧
      st1.objs d = some ⟨ps⟩ ∧ st1.present d ∧
      IntPtrManager.GetVal d st1 = .ok v ∧ st1.absent s := by
  have hds : d ≠ s := by
    rintro rfl
    rw [hd] at hs
    exact hne (by simpa using hs)
  have hload : st.heap.load ps = .ok v := by
    simpa [IntPtrManager.GetVal, hs] using hv
  have hcell : st.heap.cells ps = some v := by
    unfold Heap.load at hload
    rw [if_neg hps] at hload
    cases hc : st.heap.cells ps with
    | none => rw [hc] at hload; cases hload
    | some w => rw [hc] at hload; cases hload; rfl
  refine ⟨{ objs := setObj (setObj st.objs d (some ⟨ps⟩)) s (some ⟨nullptr⟩),
            heap := st.heap.deleteInt pd }, ?_, ?_, ?_, ?_, ?_, ?_, ?_, ?_, ?_⟩
  · simp [IntPtrManager.moveAssign, hd, hs, hne, hpd]
  · simp [Heap.deleteInt, hpd]
  · simp [Heap.releaseCount, Heap.deleteInt, hpd]
  · simp [Heap.releaseCount, Heap.deleteInt, hpd, List.count_cons, hne]
  · intro a ha
    simp [Heap.releaseCount, Heap.deleteInt, hpd, List.count_cons, Ne.symm ha]
  · simp [setObj, hds]
  · exact ⟨ps, by simp [setObj, hds], hps⟩
  · simp [IntPtrManager.GetVal, setObj, hds, Heap.load, Heap.deleteInt, hpd, hps,
      Ne.symm hne, hcell]
  · simp [State.absent, setObj]

/-- Witness for C2: `d` holding `2` receives `s` holding `5`. -/
theorem moveAssign_present_witness :
    twoHandles.objs 0 = some ⟨1⟩ ∧ twoHandles.objs 1 = some ⟨2⟩ ∧
    IntPtrManager.GetVal 1 twoHandles = .ok 5 ∧
    ∃ st1, IntPtrManager.moveAssign 0 1 twoHandles = .ok st1 ∧
      st1.heap.freed = 1 :: twoHandles.heap.freed ∧
      st1.heap.releaseCount 1 = twoHandles.heap.releaseCount 1 + 1 ∧
      st1.heap.releaseCount 2 = twoHandles.heap.releaseCount 2 ∧
      (∀ a, a ≠ 1 → st1.heap.releaseCount a = twoHandles.heap.releaseCount a) ∧
      st1.objs 0 = some ⟨2⟩ ∧ st1.present 0 ∧
      IntPtrManager.GetVal 0 st1 = .ok 5 ∧ st1.absent 1 :=
  ⟨by decide, by decide, rfl,
    moveAssign_present twoHandles 0 1 1 2 5 (by decide) (by decide) (by decide) (by decide)
      (by decide) rfl⟩

/-- Claim C3.  Move assignment of a present handle `h` holding `v` into
itself, `h = std::move(h)`, succeeds and changes nothing: the state is the
same, so nothing is released (the log and every release count are as
before), `h` is present with the same pointer and `h.GetVal()` still
returns `v`. -/
theorem moveAssign_self (s : State) (h p : Nat) (v : Int)
    (hh : s.objs h = some ⟨p⟩) (hp : p ≠ nullptr)
    (hv : IntPtrManager.GetVal h s = .ok v) :
    ∃ s1, IntPtrManager.moveAssign h h s = .ok s1 ∧ s1 = s ∧
      s1.heap.freed = s.heap.freed ∧
      (∀ a, s1.heap.releaseCount a = s.heap.releaseCount a) ∧
      s1.objs h = some ⟨p⟩ ∧ s1.present h ∧ IntPtrManager.GetVal h s1 = .ok v := by
  refine ⟨s, ?_, rfl, rfl, fun _ => rfl, hh, ⟨p, hh, hp⟩, hv⟩
  simp [IntPtrManager.moveAssign, hh]

/-- Witness for C3: `a` of `main`, holding `645`, assigned to itself with no
release logged before or after. -/
theorem moveAssign_self_witness :
    mainBeforeMove.objs 0 = some ⟨1⟩ ∧ mainBeforeMove.heap.freed = [] ∧
    ∃ s1, IntPtrManager.moveAssign 0 0 mainBeforeMove = .ok s1 ∧ s1 = mainBeforeMove ∧
      s1.heap.freed = mainBeforeMove.heap.freed ∧
      (∀ a, s1.heap.releaseCount a = mainBeforeMove.heap.releaseCount a) ∧
      s1.objs 0 = some ⟨1⟩ ∧ s1.present 0 ∧ IntPtrManager.GetVal 0 s1 = .ok 645 :=
  ⟨by decide, by decide,
    moveAssign_self mainBeforeMove 0 1 645 (by decide) (by decide) rfl⟩

/-! ## The ownership bookkeeping is kept by every operation -/

theorem inv_init : Inv State.init := by
  constructor <;> simp [State.init, Heap.empty, Exclusive, Heap.allocated]
  intro a h1 h2
  omega

theorem ctor_inv (s s1 : State) (h : Nat) (v : Int) (hi : Inv s)
    (hr : IntPtrManager.ctor h v s = .ok s1) : Inv s1 := by
  unfold IntPtrManager.ctor at hr
  cases hh : s.objs h with
  | some o => simp [hh] at hr
  | none =>
    have hpos := hi.next_pos
    have hn : s.heap.next ≠ nullptr := by unfold nullptr; omega
    simp [hh, Heap.newInt, Heap.store, hn] at hr
    subst hr
    have hfr : ∀ a, a ∈ s.heap.freed → a < s.heap.next := fun a ha => (hi.freed_alloc a ha).2
    constructor
    · simp
    · intro k p hk hp
      by_cases hkh : k = h
      · simp [setObj, hkh] at hk
        simp [← hk]
      · simp [setObj, hkh] at hk
        have := hi.owned_alloc k p hk hp
        simp
        omega
    · intro k p hk hp
      by_cases hkh : k = h
      · simp [setObj, hkh] at hk
        simp [← hk]
      · simp [setObj, hkh] at hk
        have hlt := hi.owned_alloc k p hk hp
        have hne : p ≠ s.heap.next := by omega
        simpa [hne] using hi.owned_live k p hk hp
    · intro k p hk hp
      by_cases hkh : k = h
      · simp [setObj, hkh] at hk
        intro hmem
        have := hfr p hmem
        simp at hmem
        omega
      · simp [setObj, hkh] at hk
        exact hi.owned_unfreed k p hk hp
    · intro h1 h2 p e1 e2 hp
      by_cases c1 : h1 = h <;> by_cases c2 : h2 = h
      · rw [c1, c2]
      · simp [setObj, c1] at e1
        simp [setObj, c2] at e2
        have := hi.owned_alloc h2 p e2 hp
        omega
      · simp [setObj, c1] at e1
        simp [setObj, c2] at e2
        have := hi.owned_alloc h1 p e1 hp
        omega
      · simp [setObj, c1] at e1
        simp [setObj, c2] at e2
        exact hi.excl h1 h2 p e1 e2 hp
    · exact hi.freed_nodup
    · intro a ha
      have := hi.freed_alloc a ha
      simp [Heap.allocated] at this ⊢
      omega
    · intro a ha
      simp [Heap.allocated] at ha
      by_cases han : a = s.heap.next
      · right
        exact ⟨h, by simp [setObj, han]⟩
      · have hall : s.heap.allocated a := ⟨ha.1, by omega⟩
        rcases hi.covered a hall with hf | ⟨k, hk⟩
        · left; exact hf
        · right
          refine ⟨k, ?_⟩
          have hkh : k ≠ h := by
            rintro rfl
            rw [hh] at hk
            cases hk
          simpa [setObj, hkh] using hk

theorem ctorDefault_inv (s s1 : State) (h : Nat) (hi : Inv s)
    (hr : IntPtrManager.ctorDefault h s = .ok s1) : Inv s1 :=
  ctor_inv s s1 h 0 hi hr

theorem setObj_setObj (objs : Nat → Option IntPtrManager) (h : Nat)
    (o1 o2 : Option IntPtrManager) :
    setObj (setObj objs h o1) h o2 = setObj objs h o2 := by
  funext k
  by_cases hk : k = h <;> simp [setObj, hk]

/-- Releasing the resource of a present object and nulling its pointer keeps
the bookkeeping. -/
theorem release_inv (s : State) (d pd : Nat) (hi : Inv s)
    (hd : s.objs d = some ⟨pd⟩) (hpd : pd ≠ nullptr) :
    Inv { objs := setObj s.objs d (some ⟨nullptr⟩), heap := s.heap.deleteInt pd } := by
  have hother : ∀ k p, k ≠ d → s.objs k = some ⟨p⟩ → p ≠ nullptr → p ≠ pd := by
    intro k p hkd hk hp hpp
    subst hpp
    exact hkd (hi.excl k d p hk hd hp)
  have hobj : ∀ k p, setObj s.objs d (some ⟨nullptr⟩) k = some ⟨p⟩ → p ≠ nullptr →
      k ≠ d ∧ s.objs k = some ⟨p⟩ := by
    intro k p hk hp
    by_cases hkd : k = d
    · simp [setObj, hkd] at hk
      exact absurd hk.symm hp
    · exact ⟨hkd, by simpa [setObj, hkd] using hk⟩
  constructor
  · simpa [Heap.deleteInt, hpd] using hi.next_pos
  · intro k p hk hp
    obtain ⟨_, hk1⟩ := hobj k p hk hp
    simpa [Heap.deleteInt, hpd] using hi.owned_alloc k p hk1 hp
  · intro k p hk hp
    obtain ⟨hkd, hk1⟩ := hobj k p hk hp
    have := hother k p hkd hk1 hp
    simpa [Heap.deleteInt, hpd, this] using hi.owned_live k p hk1 hp
  · intro k p hk hp
    obtain ⟨hkd, hk1⟩ := hobj k p hk hp
    have h1 := hother k p hkd hk1 hp
    have h2 := hi.owned_unfreed k p hk1 hp
    simp [Heap.deleteInt, hpd, h1, h2]
  · intro h1 h2 p e1 e2 hp
    obtain ⟨_, e1⟩ := hobj h1 p e1 hp
    obtain ⟨_, e2⟩ := hobj h2 p e2 hp
    exact hi.excl h1 h2 p e1 e2 hp
  · have := hi.owned_unfreed d pd hd hpd
    simp [Heap.deleteInt, hpd, this, hi.freed_nodup]
  · intro a ha
    simp [Heap.deleteInt, hpd] at ha
    have hpa : s.heap.allocated pd :=
      ⟨by unfold nullptr at hpd; omega, hi.owned_alloc d pd hd hpd⟩
    rcases ha with rfl | ha
    · simpa [Heap.allocated, Heap.deleteInt, hpd] using hpa
    · simpa [Heap.allocated, Heap.deleteInt, hpd] using hi.freed_alloc a ha
  · intro a ha
    have ha1 : s.heap.allocated a := by
      simpa [Heap.allocated, Heap.deleteInt, hpd] using ha
    rcases hi.covered a ha1 with hf | ⟨k, hk⟩
    · left
      simp [Heap.deleteInt, hpd, hf]
    · by_cases hkd : k = d
      · left
        rw [hkd, hd] at hk
        have hpa : pd = a := by simpa using hk
        subst hpa
        simp [Heap.deleteInt, hpd]
      · right
        exact ⟨k, by simpa [setObj, hkd] using hk⟩

/-- Handing the pointer of `src` to an object `d` that holds none, and
nulling the pointer of `src`, keeps the bookkeeping. -/
theorem transfer_inv (s : State) (d src po : Nat) (hi : Inv s)
    (hsrc : s.objs src = some ⟨po⟩)
    (hd : s.objs d = none ∨ s.objs d = some ⟨nullptr⟩) (hds : d ≠ src) :
    Inv { objs := setObj (setObj s.objs d (some ⟨po⟩)) src (some ⟨nullptr⟩),
          heap := s.heap } := by
  have hobj : ∀ k p, setObj (setObj s.objs d (some ⟨po⟩)) src (some ⟨nullptr⟩) k = some ⟨p⟩ →
      p ≠ nullptr → k ≠ src ∧ ((k = d ∧ p = po) ∨ (k ≠ d ∧ s.objs k = some ⟨p⟩)) := by
    intro k p hk hp
    by_cases hks : k = src
    · simp [setObj, hks] at hk
      exact absurd hk.symm hp
    · refine ⟨hks, ?_⟩
      by_cases hkd : k = d
      · left
        simp [setObj, hks, hkd, hds] at hk
        exact ⟨hkd, hk.symm⟩
      · right
        exact ⟨hkd, by simpa [setObj, hks, hkd] using hk⟩
  have hold : ∀ k p, setObj (setObj s.objs d (some ⟨po⟩)) src (some ⟨nullptr⟩) k = some ⟨p⟩ →
      p ≠ nullptr → ∃ k0, s.objs k0 = some ⟨p⟩ := by
    intro k p hk hp
    obtain ⟨_, ⟨_, rfl⟩ | ⟨_, h0⟩⟩ := hobj k p hk hp
    · exact ⟨src, hsrc⟩
    · exact ⟨k, h0⟩
  constructor
  · exact hi.next_pos
  · intro k p hk hp
    obtain ⟨k0, h0⟩ := hold k p hk hp
    exact hi.owned_alloc k0 p h0 hp
  · intro k p hk hp
    obtain ⟨k0, h0⟩ := hold k p hk hp
    exact hi.owned_live k0 p h0 hp
  · intro k p hk hp
    obtain ⟨k0, h0⟩ := hold k p hk hp
    exact hi.owned_unfreed k0 p h0 hp
  · intro h1 h2 p e1 e2 hp
    obtain ⟨n1, c1⟩ := hobj h1 p e1 hp
    obtain ⟨n2, c2⟩ := hobj h2 p e2 hp
    rcases c1 with ⟨a1, b1⟩ | ⟨a1, b1⟩ <;> rcases c2 with ⟨a2, b2⟩ | ⟨a2, b2⟩
    · rw [a1, a2]
    · subst b1
      exact absurd (hi.excl h2 src p b2 hsrc hp) n2
    · subst b2
      exact absurd (hi.excl h1 src p b1 hsrc hp) n1
    · exact hi.excl h1 h2 p b1 b2 hp
  · exact hi.freed_nodup
  · exact hi.freed_alloc
  · intro a ha
    rcases hi.covered a ha with hf | ⟨k, hk⟩
    · left; exact hf
    · right
      have ha0 : a ≠ nullptr := by
        have := ha.1
        unfold nullptr
        omega
      have hkd : k ≠ d := by
        rintro rfl
        rcases hd with hd | hd
        · rw [hd] at hk; cases hk
        · rw [hd] at hk
          exact ha0 (by simpa using hk.symm)
      by_cases hks : k = src
      · rw [hks, hsrc] at hk
        have hpa : po = a := by simpa using hk
        exact ⟨d, by simp [setObj, hds, hpa]⟩
      · exact ⟨k, by simpa [setObj, hks, hkd] using hk⟩

/-- Ending the lifetime of an object whose pointer is null keeps the
bookkeeping. -/
theorem remove_inv (s : State) (d : Nat) (hi : Inv s) (hd : s.objs d = some ⟨nullptr⟩) :
    Inv { objs := setObj s.objs d none, heap := s.heap } := by
  have hobj : ∀ k p, setObj s.objs d none k = some ⟨p⟩ → s.objs k = some ⟨p⟩ := by
    intro k p hk
    by_cases hkd : k = d
    · simp [setObj, hkd] at hk
    · simpa [setObj, hkd] using hk
  constructor
  · exact hi.next_pos
  · exact fun k p hk hp => hi.owned_alloc k p (hobj k p hk) hp
  · exact fun k p hk hp => hi.owned_live k p (hobj k p hk) hp
  · exact fun k p hk hp => hi.owned_unfreed k p (hobj k p hk) hp
  · exact fun h1 h2 p e1 e2 hp => hi.excl h1 h2 p (hobj h1 p e1) (hobj h2 p e2) hp
  · exact hi.freed_nodup
  · exact hi.freed_alloc
  · intro a ha
    rcases hi.covered a ha with hf | ⟨k, hk⟩
    · left; exact hf
    · right
      have hkd : k ≠ d := by
        rintro rfl
        rw [hd] at hk
        have h0 : nullptr = a := by simpa using hk
        have := ha.1
        unfold nullptr at h0
        omega
      exact ⟨k, by simpa [setObj, hkd] using hk⟩

theorem moveCtor_inv (s s1 : State) (b a : Nat) (hi : Inv s)
    (hr : IntPtrManager.moveCtor b a s = .ok s1) : Inv s1 := by
  unfold IntPtrManager.moveCtor at hr
  cases hb : s.objs b with
  | some o => simp [hb] at hr
  | none =>
    cases ha : s.objs a with
    | none => simp [hb, ha] at hr
    | some o =>
      simp [hb, ha] at hr
      subst hr
      have hba : b ≠ a := by
        rintro rfl
        rw [ha] at hb
        cases hb
      exact transfer_inv s b a o.ptr_ hi ha (Or.inl hb) hba

theorem moveAssign_inv (s s1 : State) (d src : Nat) (hi : Inv s)
    (hr : IntPtrManager.moveAssign d src s = .ok s1) : Inv s1 := by
  unfold IntPtrManager.moveAssign at hr
  cases hd : s.objs d with
  | none => simp [hd] at hr
  | some t =>
    cases hs : s.objs src with
    | none => simp [hd, hs] at hr
    | some o =>
      obtain ⟨pd⟩ := t
      obtain ⟨po⟩ := o
      simp only [hd, hs] at hr
      by_cases heq : pd = po
      · simp [heq] at hr
        subst hr
        exact hi
      · have hds : d ≠ src := by
          rintro rfl
          rw [hd] at hs
          exact heq (by simpa using hs)
        by_cases hpd : pd = nullptr
        · subst hpd
          simp [heq] at hr
          subst hr
          exact transfer_inv s d src po hi hs (Or.inr hd) hds
        · simp [heq, hpd] at hr
          subst hr
          have h1 := release_inv s d pd hi hd hpd
          have h2 := transfer_inv _ d src po h1 (by simpa [setObj, Ne.symm hds] using hs)
            (Or.inr (by simp [setObj])) hds
          simpa [setObj_setObj] using h2

theorem setVal_inv (s s1 : State) (h : Nat) (v : Int) (hi : Inv s)
    (hr : IntPtrManager.SetVal h v s = .ok s1) : Inv s1 := by
  unfold IntPtrManager.SetVal at hr
  cases hh : s.objs h with
  | none => simp [hh] at hr
  | some t =>
    simp only [hh] at hr
    unfold Heap.store at hr
    by_cases hp : t.ptr_ = nullptr
    · simp [hp] at hr
    · cases hc : s.heap.cells t.ptr_ with
      | none => simp [hp, hc] at hr
      | some w =>
        simp [hp, hc] at hr
        subst hr
        constructor
        · exact hi.next_pos
        · exact hi.owned_alloc
        · intro k p hk hpn
          by_cases hpp : p = t.ptr_
          · exact ⟨v, by simp [hpp]⟩
          · simpa [hpp] using hi.owned_live k p hk hpn
        · exact hi.owned_unfreed
        · exact hi.excl
        · exact hi.freed_nodup
        · exact hi.freed_alloc
        · exact hi.covered

theorem destroy_inv (s s1 : State) (h : Nat) (hi : Inv s)
    (hr : IntPtrManager.destroy h s = .ok s1) : Inv s1 := by
  unfold IntPtrManager.destroy IntPtrManager.dtorBody at hr
  cases hh : s.objs h with
  | none => simp [hh] at hr
  | some t =>
    obtain ⟨p⟩ := t
    by_cases hp : p = nullptr
    · simp [hh, hp] at hr
      subst hr
      exact remove_inv s h hi (by rw [hh, hp])
    · simp [hh, hp] at hr
      subst hr
      have h1 := release_inv s h p hi hh hp
      have h2 := remove_inv _ h h1 (by simp [setObj])
      simpa [setObj_setObj] using h2

theorem step_inv (op : Op) (s s1 : State) (hi : Inv s) (hr : step op s = .ok s1) :
    Inv s1 := by
  cases op with
  | ctorDefault h => exact ctorDefault_inv s s1 h hi hr
  | ctor h v => exact ctor_inv s s1 h v hi hr
  | moveCtor h o => exact moveCtor_inv s s1 h o hi hr
  | moveAssign h o => exact moveAssign_inv s s1 h o hi hr
  | setVal h v => exact setVal_inv s s1 h v hi hr
  | getVal h =>
    simp only [step] at hr
    cases hg : IntPtrManager.GetVal h s with
    | error e => simp [hg] at hr
    | ok n =>
      simp [hg] at hr
      subst hr
      exact hi
  | destroy h => exact destroy_inv s s1 h hi hr

theorem run_inv (ops : List Op) (s s1 : State) (hi : Inv s) (hr : run ops s = .ok s1) :
    Inv s1 := by
  induction ops generalizing s with
  | nil =>
    simp [run] at hr
    subst hr
    exact hi
  | cons op ops ih =>
    simp only [run] at hr
    cases hs : step op s with
    | error e => simp [hs] at hr
    | ok s2 =>
      simp only [hs] at hr
      exact ih s2 (step_inv op s s2 hi hs) hr

theorem reachable_inv (s : State) (hr : Reachable s) : Inv s := by
  obtain ⟨ops, hops⟩ := hr
  exact run_inv ops State.init s inv_init hops

/-! ## Release-once and exclusivity -/

/-- Claim C4.  For every program built from the two constructors, move
construction, move assignment (self-assignment included), `SetVal`, `GetVal`
and destruction that runs from the empty state to a state `s`: at no point of
the run has an address been released twice, and if every handle has been
destroyed in `s` then every allocated `int` has been released exactly once
and nothing else has been released. -/
theorem release_once (ops : List Op) (s : State)
    (hrun : run ops State.init = .ok s) (hdead : AllDestroyed s) :
    (∀ a, s.heap.allocated a → s.heap.releaseCount a = 1) ∧
    (∀ a, ¬ s.heap.allocated a → s.heap.releaseCount a = 0) ∧
    (∀ ops1 ops2 s1, ops = ops1 ++ ops2 → run ops1 State.init = .ok s1 →
      ∀ a, s1.heap.releaseCount a ≤ 1) := by
  have hi := run_inv ops State.init s inv_init hrun
  refine ⟨?_, ?_, ?_⟩
  · intro a ha
    rcases hi.covered a ha with hf | ⟨h, hh⟩
    · exact List.count_eq_one_of_mem hi.freed_nodup hf
    · rw [hdead h] at hh
      cases hh
  · intro a ha
    exact List.count_eq_zero_of_not_mem (fun hm => ha (hi.freed_alloc a hm))
  · intro ops1 ops2 s1 _ h1 a
    have hi1 := run_inv ops1 State.init s1 inv_init h1
    exact List.nodup_iff_count_le_one.mp hi1.freed_nodup a

/-- Witness for C4: the whole of `main` in `wrapper_class.cpp`. -/
theorem release_once_witness :
    run mainProgram State.init = .ok mainEnd ∧ AllDestroyed mainEnd ∧
    mainEnd.heap.allocated 1 ∧
    ((∀ a, mainEnd.heap.allocated a → mainEnd.heap.releaseCount a = 1) ∧
     (∀ a, ¬ mainEnd.heap.allocated a → mainEnd.heap.releaseCount a = 0) ∧
     (∀ ops1 ops2 s1, mainProgram = ops1 ++ ops2 → run ops1 State.init = .ok s1 →
       ∀ a, s1.heap.releaseCount a ≤ 1)) :=
  have hdead : AllDestroyed mainEnd := by
    intro h
    by_cases h0 : h = 0 <;> by_cases h1 : h = 1 <;>
      simp [mainEnd, mainProgram, runFrom, run, step, IntPtrManager.ctor, IntPtrManager.GetVal,
        IntPtrManager.SetVal, IntPtrManager.moveCtor, IntPtrManager.destroy,
        IntPtrManager.dtorBody, Heap.newInt, Heap.store, Heap.load, Heap.deleteInt, setObj,
        State.init, Heap.empty, nullptr, h0, h1]
  ⟨rfl, hdead, by decide, release_once mainProgram mainEnd rfl hdead⟩

/-- Claim C5.  In every state reachable from the state with no handles by
the constructors, the move constructor, the move assignment operator,
`SetVal`, `GetVal` and destruction, two live handles that hold the same
non-null `ptr_` are the same handle. -/
theorem exclusive_of_reachable (s : State) (hr : Reachable s) :
    ∀ h1 h2 p, s.objs h1 = some ⟨p⟩ → s.objs h2 = some ⟨p⟩ → p ≠ nullptr → h1 = h2 :=
  (reachable_inv s hr).excl

/-- Witness for C5: the state of `main` after `a` has been moved into `b`. -/
theorem exclusive_of_reachable_witness :
    Reachable mainAfterMove ∧
    ∀ h1 h2 p, mainAfterMove.objs h1 = some ⟨p⟩ → mainAfterMove.objs h2 = some ⟨p⟩ →
      p ≠ nullptr → h1 = h2 :=
  have hr : Reachable mainAfterMove :=
    ⟨[.ctor 0 445, .getVal 0, .setVal 0 645, .moveCtor 1 0], rfl⟩
  ⟨hr, exclusive_of_reachable mainAfterMove hr⟩

/-! ## Destruction -/

/-- Claim C6.  Destruction of an absent handle does nothing.  For a handle
`h` whose `ptr_` is null, in particular one that has just been the source of
a move construction, or the source of a move assignment into another handle
in a reachable state, the destructor body returns the state unchanged, and
destruction succeeds with the free store (cells, allocations and release
log) as before. -/
theorem dtor_absent_noop (s : State) (h : Nat)
    (habs : s.absent h ∨
      (∃ s0 b, IntPtrManager.moveCtor b h s0 = .ok s) ∨
      (∃ s0 d, Reachable s0 ∧ d ≠ h ∧ IntPtrManager.moveAssign d h s0 = .ok s)) :
    s.absent h ∧ IntPtrManager.dtorBody h s = .ok s ∧
    ∃ s1, IntPtrManager.destroy h s = .ok s1 ∧ s1.heap = s.heap ∧
      s1.heap.freed = s.heap.freed ∧ s1.objs h = none := by
  have hnull : s.absent h := by
    rcases habs with habs | ⟨s0, b, hm⟩ | ⟨s0, d, hr0, hdh, hm⟩
    · exact habs
    · unfold IntPtrManager.moveCtor at hm
      cases hb : s0.objs b with
      | some o => simp [hb] at hm
      | none =>
        cases ha : s0.objs h with
        | none => simp [hb, ha] at hm
        | some o =>
          simp [hb, ha] at hm
          subst hm
          simp [State.absent, setObj]
    · unfold IntPtrManager.moveAssign at hm
      cases hd : s0.objs d with
      | none => simp [hd] at hm
      | some t =>
        cases hs : s0.objs h with
        | none => simp [hd, hs] at hm
        | some o =>
          obtain ⟨pd⟩ := t
          obtain ⟨po⟩ := o
          simp only [hd, hs] at hm
          by_cases heq : pd = po
          · simp [heq] at hm
            subst hm
            subst heq
            by_cases hp0 : pd = nullptr
            · rw [hp0] at hs
              exact hs
            · exact absurd ((reachable_inv s0 hr0).excl d h pd hd hs hp0) hdh
          · simp [heq] at hm
            subst hm
            simp [State.absent, setObj]
  refine ⟨hnull, ?_, ⟨{ objs := setObj s.objs h none, heap := s.heap }, ?_, rfl, rfl, ?_⟩⟩
  · unfold State.absent at hnull
    simp [IntPtrManager.dtorBody, hnull]
  · unfold State.absent at hnull
    simp [IntPtrManager.destroy, IntPtrManager.dtorBody, hnull]
  · simp [setObj]

/-- Witness for C6: `a` of `main` after it has been moved into `b`, as the
comment at the end of `main` describes. -/
theorem dtor_absent_noop_witness :
    IntPtrManager.moveCtor 1 0 mainBeforeMove = .ok mainAfterMove ∧
    (mainAfterMove.absent 0 ∧ IntPtrManager.dtorBody 0 mainAfterMove = .ok mainAfterMove ∧
      ∃ s1, IntPtrManager.destroy 0 mainAfterMove = .ok s1 ∧ s1.heap = mainAfterMove.heap ∧
        s1.heap.freed = mainAfterMove.heap.freed ∧ s1.objs 0 = none) :=
  ⟨rfl, dtor_absent_noop mainAfterMove 0 (Or.inr (Or.inl ⟨mainBeforeMove, 1, rfl⟩))⟩

/-- Counterexample to C7 as stated: after the destructor body has run on the
present handle `a` of `main` (pointer `1`), its `ptr_` is still `1`, not
null, and a second run of the body on that handle state passes the same
address to `delete` again. -/
theorem dtor_keeps_ptr_counterexample :
    mainAfterCtor.present 0 ∧
    ∃ s1, IntPtrManager.dtorBody 0 mainAfterCtor = .ok s1 ∧
      s1.objs 0 = some ⟨1⟩ ∧ ¬ s1.absent 0 ∧
      ∃ s2, IntPtrManager.dtorBody 0 s1 = .ok s2 ∧
        s2.heap.freed = [1, 1] ∧ s2.heap.releaseCount 1 = 2 :=
  ⟨⟨1, by decide, by decide⟩,
    ⟨{ objs := mainAfterCtor.objs, heap := mainAfterCtor.heap.deleteInt 1 }, rfl, by decide,
      by decide,
      ⟨{ objs := mainAfterCtor.objs,
         heap := (mainAfterCtor.heap.deleteInt 1).deleteInt 1 }, rfl, by decide, by decide⟩⟩⟩

/-- Claim C7, amended.  For a present handle `h` with pointer `p`, the
destructor body releases the resource of `h` exactly once (the release log
gains exactly `p`, whose cell stops being live) and leaves `ptr_` as it was,
equal to `p`; destruction then ends the lifetime of `h` with the same free
store, after which no operation, a second destruction included, can run on
`h`. -/
theorem dtor_present_releases (s : State) (h p : Nat)
    (hh : s.objs h = some ⟨p⟩) (hp : p ≠ nullptr) :
    ∃ s1, IntPtrManager.dtorBody h s = .ok s1 ∧
      s1.heap.freed = p :: s.heap.freed ∧
      s1.heap.releaseCount p = s.heap.releaseCount p + 1 ∧
      (∀ a, a ≠ p → s1.heap.releaseCount a = s.heap.releaseCount a) ∧
      s1.heap.cells p = none ∧
      s1.objs h = some ⟨p⟩ ∧
      ∃ s2, IntPtrManager.destroy h s = .ok s2 ∧ s2.heap = s1.heap ∧ s2.objs h = none ∧
        IntPtrManager.destroy h s2 = .error .outOfLifetime := by
  refine ⟨{ objs := s.objs, heap := s.heap.deleteInt p }, ?_, ?_, ?_, ?_, ?_, hh,
    ⟨{ objs := setObj s.objs h none, heap := s.heap.deleteInt p }, ?_, rfl, ?_, ?_⟩⟩
  · simp [IntPtrManager.dtorBody, hh, hp]
  · simp [Heap.deleteInt, hp]
  · simp [Heap.releaseCount, Heap.deleteInt, hp]
  · intro a ha
    simp [Heap.releaseCount, Heap.deleteInt, hp, List.count_cons, Ne.symm ha]
  · simp [Heap.deleteInt, hp]
  · simp [IntPtrManager.destroy, IntPtrManager.dtorBody, hh, hp]
  · simp [setObj]
  · simp [IntPtrManager.destroy, IntPtrManager.dtorBody, setObj]

/-- Witness for the amended C7: `a` of `main` right after its construction. -/
theorem dtor_present_releases_witness :
    mainAfterCtor.objs 0 = some ⟨1⟩ ∧
    ∃ s1, IntPtrManager.dtorBody 0 mainAfterCtor = .ok s1 ∧
      s1.heap.freed = 1 :: mainAfterCtor.heap.freed ∧
      s1.heap.releaseCount 1 = mainAfterCtor.heap.releaseCount 1 + 1 ∧
      (∀ a, a ≠ 1 → s1.heap.releaseCount a = mainAfterCtor.heap.releaseCount a) ∧
      s1.heap.cells 1 = none ∧
      s1.objs 0 = some ⟨1⟩ ∧
      ∃ s2, IntPtrManager.destroy 0 mainAfterCtor = .ok s2 ∧ s2.heap = s1.heap ∧
        s2.objs 0 = none ∧ IntPtrManager.destroy 0 s2 = .error .outOfLifetime :=
  ⟨by decide, dtor_present_releases mainAfterCtor 0 1 (by decide) (by decide)⟩

/-! ## Access through an absent handle -/

/-- Claim C8.  On an absent handle (its `ptr_` is null) `GetVal()` stops with
the null-dereference fault and returns no `int`, and `SetVal(v)` stops with
the same fault and yields no state, so no cell of the free store is
written. -/
theorem absent_access_faults (s : State) (h : Nat) (habs : s.absent h) :
    IntPtrManager.GetVal h s = .error .nullDeref ∧
    (∀ n, IntPtrManager.GetVal h s ≠ .ok n) ∧
    ∀ v, IntPtrManager.SetVal h v s = .error .nullDeref ∧
      ∀ s1, IntPtrManager.SetVal h v s ≠ .ok s1 := by
  unfold State.absent at habs
  have hg : IntPtrManager.GetVal h s = .error .nullDeref := by
    simp [IntPtrManager.GetVal, habs, Heap.load]
  have hs : ∀ v, IntPtrManager.SetVal h v s = .error .nullDeref := by
    intro v
    simp [IntPtrManager.SetVal, habs, Heap.store]
  refine ⟨hg, ?_, ?_⟩
  · intro n hn
    rw [hg] at hn
    cases hn
  · intro v
    refine ⟨hs v, ?_⟩
    intro s1 h1
    rw [hs v] at h1
    cases h1

/-- Witness for C8: `a` of `main` after it has been moved into `b`. -/
theorem absent_access_faults_witness :
    mainAfterMove.absent 0 ∧
    (IntPtrManager.GetVal 0 mainAfterMove = .error .nullDeref ∧
     (∀ n, IntPtrManager.GetVal 0 mainAfterMove ≠ .ok n) ∧
     ∀ v, IntPtrManager.SetVal 0 v mainAfterMove = .error .nullDeref ∧
       ∀ s1, IntPtrManager.SetVal 0 v mainAfterMove ≠ .ok s1) :=
  ⟨by decide, absent_access_faults mainAfterMove 0 (by decide)⟩

/-! ## Frame of move construction -/

/-- Claim C9.  Move construction from a live source `a`, present or absent,
into fresh storage `b` succeeds and leaves the free store as it was: the same
cells with the same contents, the same allocations and the same release log;
among the objects only `a` and `b` change. -/
theorem moveCtor_frame (s : State) (a b : Nat) (o : IntPtrManager)
    (ha : s.objs a = some o) (hb : s.objs b = none) :
    ∃ s1, IntPtrManager.moveCtor b a s = .ok s1 ∧ s1.heap = s.heap ∧
      s1.heap.cells = s.heap.cells ∧ s1.heap.next = s.heap.next ∧
      s1.heap.freed = s.heap.freed ∧
      s1.objs b = some o ∧ s1.objs a = some ⟨nullptr⟩ ∧
      ∀ k, k ≠ a → k ≠ b → s1.objs k = s.objs k := by
  have hne : b ≠ a := by
    rintro rfl
    rw [ha] at hb
    cases hb
  refine ⟨{ objs := setObj (setObj s.objs b (some ⟨o.ptr_⟩)) a (some ⟨nullptr⟩),
            heap := s.heap }, ?_, rfl, rfl, rfl, rfl, ?_, ?_, ?_⟩
  · simp [IntPtrManager.moveCtor, ha, hb]
  · simp [setObj, hne]
  · simp [setObj]
  · intro k hka hkb
    simp [setObj, hka, hkb]

/-- Witness for C9: the move of `a` into `b` in `main`. -/
theorem moveCtor_frame_witness :
    mainBeforeMove.objs 0 = some ⟨1⟩ ∧ mainBeforeMove.objs 1 = none ∧
    ∃ s1, IntPtrManager.moveCtor 1 0 mainBeforeMove = .ok s1 ∧ s1.heap = mainBeforeMove.heap ∧
      s1.heap.cells = mainBeforeMove.heap.cells ∧ s1.heap.next = mainBeforeMove.heap.next ∧
      s1.heap.freed = mainBeforeMove.heap.freed ∧
      s1.objs 1 = some ⟨1⟩ ∧ s1.objs 0 = some ⟨nullptr⟩ ∧
      ∀ k, k ≠ 0 → k ≠ 1 → s1.objs k = mainBeforeMove.objs k :=
  ⟨by decide, by decide, moveCtor_frame mainBeforeMove 0 1 ⟨1⟩ (by decide) (by decide)⟩

/-! ## `Person` moved between distinct objects -/

/-- Claim C10.  For a valid `Person` `p` with age `n` and nicknames `ns` and
any other storage `q`, the move assignment `q = std::move(p)` (when `q` is an
object) or the move construction `Person q(std::move(p))` (when `q` is fresh
storage) succeeds; afterwards `q` is valid, `q.GetAge()` is `n`, the
nicknames of `q` are `ns` and `GetNicknameAtI` returns them element by
element, and `p` is invalid. -/
theorem person_move_transfers (st : PersonStore) (p q n : Nat) (ns : List String)
    (hpq : p ≠ q) (hp : st p = some { age_ := n, nicknames_ := ns, valid_ := true }) :
    ∃ st1,
      (if (st q).isSome then Person.moveAssign q p st else Person.moveCtor q p st) = .ok st1 ∧
      st1 q = some { age_ := n, nicknames_ := ns, valid_ := true } ∧
      Person.PrintValid q st1 = .ok "Object is valid." ∧
      Person.GetAge q st1 = .ok n ∧
      (∀ i nick, ns[i]? = some nick →
        ∀ beyond, Person.GetNicknameAtI q i st1 beyond = .ok nick) ∧
      (∃ pp, st1 p = some pp ∧ pp.valid_ = false) ∧
      Person.PrintValid p st1 = .ok "Object is invalid." := by
  have hqp : q ≠ p := Ne.symm hpq
  cases hq : st q with
  | none =>
    refine ⟨_, by simp [Person.moveCtor, hq, hp]; rfl, ?_, ?_, ?_, ?_, ?_, ?_⟩
    · simp [modifyPerson, hqp]
    · simp [Person.PrintValid, modifyPerson, hqp]
    · simp [Person.GetAge, modifyPerson, hqp]
    · intro i nick hi beyond
      simp [Person.GetNicknameAtI, modifyPerson, hqp, hi]
    · simp [modifyPerson, hpq, hp]
    · simp [Person.PrintValid, modifyPerson, hpq, hp]
  | some old =>
    refine ⟨_, by simp [Person.moveAssign, hq, hp, modifyPerson, hpq]; rfl, ?_, ?_, ?_, ?_, ?_, ?_⟩
    · simp [modifyPerson, hqp, hq]
    · simp [Person.PrintValid, modifyPerson, hqp, hq]
    · simp [Person.GetAge, modifyPerson, hqp, hq]
    · intro i nick hi beyond
      simp [Person.GetNicknameAtI, modifyPerson, hqp, hq, hi]
    · simp [modifyPerson, hpq, hp]
    · simp [Person.PrintValid, modifyPerson, hpq, hp]

/-- Witness for C10 on `main` of `move_constructors.cpp`: `andy` is moved to
`andy1` by move assignment, then `andy1` is moved to `andy2` (object `2`) by
move construction. -/
theorem person_move_transfers_witness :
    (andyStore 0 = some { age_ := 15445, nicknames_ := ["andy", "pavlo"], valid_ := true } ∧
     ∃ st1,
      (if (andyStore 1).isSome then Person.moveAssign 1 0 andyStore
        else Person.moveCtor 1 0 andyStore) = .ok st1 ∧
      st1 1 = some { age_ := 15445, nicknames_ := ["andy", "pavlo"], valid_ := true } ∧
      Person.PrintValid 1 st1 = .ok "Object is valid." ∧
      Person.GetAge 1 st1 = .ok 15445 ∧
      (∀ i nick, ["andy", "pavlo"][i]? = some nick →
        ∀ beyond, Person.GetNicknameAtI 1 i st1 beyond = .ok nick) ∧
      (∃ pp, st1 0 = some pp ∧ pp.valid_ = false) ∧
      Person.PrintValid 0 st1 = .ok "Object is invalid.") ∧
    (andy1Store 1 = some { age_ := 15445, nicknames_ := ["andy", "pavlo"], valid_ := true } ∧
     ∃ st1,
      (if (andy1Store 2).isSome then Person.moveAssign 2 1 andy1Store
        else Person.moveCtor 2 1 andy1Store) = .ok st1 ∧
      st1 2 = some { age_ := 15445, nicknames_ := ["andy", "pavlo"], valid_ := true } ∧
      Person.PrintValid 2 st1 = .ok "Object is valid." ∧
      Person.GetAge 2 st1 = .ok 15445 ∧
      (∀ i nick, ["andy", "pavlo"][i]? = some nick →
        ∀ beyond, Person.GetNicknameAtI 2 i st1 beyond = .ok nick) ∧
      (∃ pp, st1 1 = some pp ∧ pp.valid_ = false) ∧
      Person.PrintValid 1 st1 = .ok "Object is invalid.") :=
  ⟨⟨by decide,
     person_move_transfers andyStore 0 1 15445 ["andy", "pavlo"] (by decide) (by decide)⟩,
   ⟨by decide,
     person_move_transfers andy1Store 1 2 15445 ["andy", "pavlo"] (by decide) (by decide)⟩⟩

/-! ## `Person` moved into itself -/

/-- Claim C11 evaluated on the code.  The move assignment of the valid
`andy` of `main` into itself, `andy = std::move(andy)`, runs
`valid_ = true; other.valid_ = false;` on one and the same object: the age is
kept, but the object ends invalid and `PrintValid` prints
`Object is invalid.`, so the assignment is not a no-op. -/
theorem person_self_move_invalidates :
    andyStore 0 = some { age_ := 15445, nicknames_ := ["andy", "pavlo"], valid_ := true } ∧
    ∃ st1, Person.moveAssign 0 0 andyStore = .ok st1 ∧
      (∃ pp, st1 0 = some pp ∧ pp.age_ = 15445 ∧ pp.valid_ = false) ∧
      Person.GetAge 0 st1 = .ok 15445 ∧
      Person.PrintValid 0 st1 = .ok "Object is invalid." ∧
      st1 0 ≠ andyStore 0 :=
  ⟨by decide,
    ⟨storeAfter (Person.moveAssign 0 0 andyStore) andyStore, rfl,
      ⟨{ age_ := 15445, nicknames_ := [], valid_ := false }, by decide, rfl, rfl⟩,
      rfl, rfl, by decide⟩⟩

/-! ## `Person` moved from an invalid source -/

/-- Counterexample to C12 as stated: in `main` after `andy1 = std::move(andy)`
the object `andy` is invalid, yet move construction of a new object from it,
and move assignment of it into `andy1`, both leave a valid destination. -/
theorem person_move_from_invalid_counterexample :
    (∃ pp, andy1Store 0 = some pp ∧ pp.valid_ = false) ∧
    (∃ st1, Person.moveCtor 2 0 andy1Store = .ok st1 ∧
      (∃ pq, st1 2 = some pq ∧ pq.valid_ = true) ∧
      Person.PrintValid 2 st1 = .ok "Object is valid.") ∧
    (∃ st1, Person.moveAssign 1 0 andy1Store = .ok st1 ∧
      (∃ pq, st1 1 = some pq ∧ pq.valid_ = true) ∧
      Person.PrintValid 1 st1 = .ok "Object is valid.") :=
  ⟨⟨{ age_ := 15445, nicknames_ := [], valid_ := false }, by decide, rfl⟩,
    ⟨storeAfter (Person.moveCtor 2 0 andy1Store) andy1Store, rfl,
      ⟨{ age_ := 15445, nicknames_ := [], valid_ := true }, by decide, rfl⟩, rfl⟩,
    ⟨storeAfter (Person.moveAssign 1 0 andy1Store) andy1Store, rfl,
      ⟨{ age_ := 15445, nicknames_ := [], valid_ := true }, by decide, rfl⟩, rfl⟩⟩

/-- Claim C12, amended.  For every `Person` `p`, valid or not, and every
distinct destination `q`, move assignment (when `q` is an object) or move
construction (when `q` is fresh storage) from `p` succeeds and leaves `q`
valid with the age and the nicknames `p` had, and `p` invalid: the validity
of the destination is `true` whatever that of the source was, so it equals
the validity of the source exactly when the source was valid. -/
theorem person_move_dest_valid (st : PersonStore) (p q : Nat) (pp : Person)
    (hpq : p ≠ q) (hp : st p = some pp) :
    ∃ st1,
      (if (st q).isSome then Person.moveAssign q p st else Person.moveCtor q p st) = .ok st1 ∧
      st1 q = some { age_ := pp.age_, nicknames_ := pp.nicknames_, valid_ := true } ∧
      Person.PrintValid q st1 = .ok "Object is valid." ∧
      (∃ pq, st1 q = some pq ∧ (pq.valid_ = pp.valid_ ↔ pp.valid_ = true)) ∧
      (∃ pp1, st1 p = some pp1 ∧ pp1.valid_ = false) := by
  have hqp : q ≠ p := Ne.symm hpq
  cases hq : st q with
  | none =>
    refine ⟨_, by simp [Person.moveCtor, hq, hp]; rfl, ?_, ?_, ?_, ?_⟩
    · simp [modifyPerson, hqp]
    · simp [Person.PrintValid, modifyPerson, hqp]
    · refine ⟨{ age_ := pp.age_, nicknames_ := pp.nicknames_, valid_ := true }, ?_, ?_⟩
      · simp [modifyPerson, hqp]
      · exact ⟨fun h => h.symm, fun h => h.symm⟩
    · simp [modifyPerson, hpq, hp]
  | some old =>
    refine ⟨_, by simp [Person.moveAssign, hq, hp, modifyPerson, hpq]; rfl, ?_, ?_, ?_, ?_⟩
    · simp [modifyPerson, hqp, hq]
    · simp [Person.PrintValid, modifyPerson, hqp, hq]
    · refine ⟨{ age_ := pp.age_, nicknames_ := pp.nicknames_, valid_ := true }, ?_, ?_⟩
      · simp [modifyPerson, hqp, hq]
      · exact ⟨fun h => h.symm, fun h => h.symm⟩
    · simp [modifyPerson, hpq, hp]

/-- Witness for the amended C12: the invalid `andy` of `main` moved into
fresh storage. -/
theorem person_move_dest_valid_witness :
    andy1Store 0 = some { age_ := 15445, nicknames_ := [], valid_ := false } ∧
    ∃ st1,
      (if (andy1Store 2).isSome then Person.moveAssign 2 0 andy1Store
        else Person.moveCtor 2 0 andy1Store) = .ok st1 ∧
      st1 2 = some { age_ := 15445, nicknames_ := [], valid_ := true } ∧
      Person.PrintValid 2 st1 = .ok "Object is valid." ∧
      (∃ pq, st1 2 = some pq ∧ (pq.valid_ = false ↔ false = true)) ∧
      (∃ pp1, st1 0 = some pp1 ∧ pp1.valid_ = false) :=
  ⟨by decide,
    person_move_dest_valid andy1Store 0 2 { age_ := 15445, nicknames_ := [], valid_ := false }
      (by decide) (by decide)⟩

/-! ## Access to a moved-from `Person` -/

/-- Counterexample to C13 as stated: `andy` of `main` is invalid after
`andy1 = std::move(andy)`, and `andy.GetAge()` does not fail but returns the
old age `15445`. -/
theorem person_getAge_invalid_counterexample :
    (∃ pp, andy1Store 0 = some pp ∧ pp.valid_ = false) ∧
    Person.GetAge 0 andy1Store = .ok 15445 :=
  ⟨⟨{ age_ := 15445, nicknames_ := [], valid_ := false }, by decide, rfl⟩, rfl⟩

/-- Claim C13, amended.  For a `Person` `p` that has just been moved from,
by move assignment into another object `q` or by move construction of `q`,
`p` is invalid; `GetAge()` does not consult `valid_` and returns the age `p`
had before the move; `GetNicknameAtI(i)` has no validity or bounds check
either: it subscripts the vector the move left empty, so for every `i` it
yields whatever the read outside the elements yields, which may be a
string. -/
theorem person_moved_from_access (st0 st : PersonStore) (p q : Nat) (pp : Person)
    (hpq : p ≠ q) (hp : st0 p = some pp)
    (hmove : (if (st0 q).isSome then Person.moveAssign q p st0
              else Person.moveCtor q p st0) = .ok st) :
    (∃ pp1, st p = some pp1 ∧ pp1.valid_ = false) ∧
    Person.PrintValid p st = .ok "Object is invalid." ∧
    Person.GetAge p st = .ok pp.age_ ∧
    ∀ i beyond, Person.GetNicknameAtI p i st beyond = beyond i := by
  have hst : st p = some { age_ := pp.age_, nicknames_ := [], valid_ := false } := by
    cases hq : st0 q with
    | none =>
      simp [hq, Person.moveCtor, hp] at hmove
      subst hmove
      simp [modifyPerson, hpq, hp]
    | some old =>
      simp [hq, Person.moveAssign, hp, modifyPerson, hpq] at hmove
      subst hmove
      simp [modifyPerson, hpq, hp]
  refine ⟨⟨_, hst, rfl⟩, ?_, ?_, ?_⟩
  · simp [Person.PrintValid, hst]
  · simp [Person.GetAge, hst]
  · intro i beyond
    simp [Person.GetNicknameAtI, hst]

/-- Witness for the amended C13: `andy` of `main` after
`andy1 = std::move(andy)`. -/
theorem person_moved_from_access_witness :
    andyStore 0 = some { age_ := 15445, nicknames_ := ["andy", "pavlo"], valid_ := true } ∧
    (if (andyStore 1).isSome then Person.moveAssign 1 0 andyStore
      else Person.moveCtor 1 0 andyStore) = .ok andy1Store ∧
    ((∃ pp1, andy1Store 0 = some pp1 ∧ pp1.valid_ = false) ∧
     Person.PrintValid 0 andy1Store = .ok "Object is invalid." ∧
     Person.GetAge 0 andy1Store = .ok 15445 ∧
     ∀ i beyond, Person.GetNicknameAtI 0 i andy1Store beyond = beyond i) :=
  ⟨by decide, rfl,
    person_moved_from_access andyStore andy1Store 0 1
      { age_ := 15445, nicknames_ := ["andy", "pavlo"], valid_ := true }
      (by decide) (by decide) rfl⟩

/-! ## `SetVal` and `GetVal` -/

/-- Claim C14.  In a reachable state, for a present handle `h` with pointer
`p` and any `w`, `h.SetVal(w)` succeeds; afterwards `h.GetVal()` returns `w`,
every handle holds the pointer it held (so `h` owns the same resource),
nothing has been allocated or released, every cell other than that of `h` is
as before, and `GetVal()` of every other handle gives what it gave before.
Moreover, in every reachable state and for every `v`, a handle freshly
constructed by `IntPtrManager(v)` has `GetVal()` equal to `v`. -/
theorem setVal_getVal (s : State) (h p : Nat) (w : Int)
    (hr : Reachable s) (hh : s.objs h = some ⟨p⟩) (hp : p ≠ nullptr) :
    (∃ s1, IntPtrManager.SetVal h w s = .ok s1 ∧
      IntPtrManager.GetVal h s1 = .ok w ∧
      s1.objs = s.objs ∧ s1.objs h = some ⟨p⟩ ∧
      s1.heap.next = s.heap.next ∧ s1.heap.freed = s.heap.freed ∧
      (∀ a, a ≠ p → s1.heap.cells a = s.heap.cells a) ∧
      (∀ j, j ≠ h → IntPtrManager.GetVal j s1 = IntPtrManager.GetVal j s)) ∧
    (∀ s0 k v, Reachable s0 → s0.objs k = none →
      ∃ s2, IntPtrManager.ctor k v s0 = .ok s2 ∧ IntPtrManager.GetVal k s2 = .ok v) := by
  have hi := reachable_inv s hr
  obtain ⟨v0, hcell⟩ := hi.owned_live h p hh hp
  constructor
  · refine ⟨{ objs := s.objs,
              heap := { cells := fun a => if a = p then some w else s.heap.cells a,
                        next := s.heap.next, freed := s.heap.freed } },
      ?_, ?_, rfl, hh, rfl, rfl, ?_, ?_⟩
    · simp [IntPtrManager.SetVal, hh, Heap.store, hp, hcell]
    · simp [IntPtrManager.GetVal, hh, Heap.load, hp]
    · intro a ha
      simp [ha]
    · intro j hj
      cases hjo : s.objs j with
      | none => simp [IntPtrManager.GetVal, hjo]
      | some o =>
        obtain ⟨pj⟩ := o
        by_cases hpj : pj = nullptr
        · simp [IntPtrManager.GetVal, hjo, Heap.load, hpj]
        · have hne : pj ≠ p := by
            rintro rfl
            exact hj (hi.excl j h pj hjo hh hpj)
          simp [IntPtrManager.GetVal, hjo, Heap.load, hpj, hne]
  · intro s0 k v hr0 hk
    have hpos := (reachable_inv s0 hr0).next_pos
    have hn : s0.heap.next ≠ nullptr := by unfold nullptr; omega
    refine ⟨{ objs := setObj s0.objs k (some ⟨s0.heap.next⟩),
              heap := { cells := fun a => if a = s0.heap.next then some v
                                          else (s0.heap.newInt).2.cells a,
                        next := s0.heap.next + 1, freed := s0.heap.freed } }, ?_, ?_⟩
    · simp [IntPtrManager.ctor, hk, Heap.newInt, Heap.store, hn]
    · simp [IntPtrManager.GetVal, setObj, Heap.load, hn]

/-- Witness for C14 on `main` of `wrapper_class.cpp`: `IntPtrManager a(445)`
constructed in the empty state holds `445`, then `a.SetVal(645)`. -/
theorem setVal_getVal_witness :
    Reachable mainAfterCtor ∧ mainAfterCtor.objs 0 = some ⟨1⟩ ∧
    (∃ s1, IntPtrManager.SetVal 0 645 mainAfterCtor = .ok s1 ∧
      IntPtrManager.GetVal 0 s1 = .ok 645 ∧
      s1.objs = mainAfterCtor.objs ∧ s1.objs 0 = some ⟨1⟩ ∧
      s1.heap.next = mainAfterCtor.heap.next ∧ s1.heap.freed = mainAfterCtor.heap.freed ∧
      (∀ a, a ≠ 1 → s1.heap.cells a = mainAfterCtor.heap.cells a) ∧
      (∀ j, j ≠ 0 → IntPtrManager.GetVal j s1 = IntPtrManager.GetVal j mainAfterCtor)) ∧
    (∃ s2, IntPtrManager.ctor 0 445 State.init = .ok s2 ∧
      IntPtrManager.GetVal 0 s2 = .ok 445) :=
  have hr : Reachable mainAfterCtor := ⟨[.ctor 0 445], rfl⟩
  have t := setVal_getVal mainAfterCtor 0 1 645 hr (by decide) (by decide)
  ⟨hr, by decide, t.1, t.2 State.init 0 445 ⟨[], rfl⟩ (by decide)⟩

end ModernCpp
